import Mathlib

/-!
# Verification of the MPS indexing kernels (aten/src/ATen/mps/IndexKernels.h)

Shallow embedding of the Metal indexing shaders: the `get_idx` offset
resolver, the `index_select` (gather) and `index_put` (scatter) kernels,
the `kernel_index_offsets` precomputation kernel, the two index-table
representations (`IndexAB`, legacy and modern), and the two accumulating
scatter paths (`index_put_accumulate_native_dtypes` with a hardware atomic
add, and `atomic_index_put_accumulate` built on the compare-and-swap loop
`atomic_fetch_add_relaxed`).

Machine integers are modelled as `Nat`/`Int` with explicit wraparound:
`% 2^32` for the unsigned 32-bit offset arithmetic of `get_idx`, and a
centred `% 2^64` (`wrap64`) for the signed 64-bit indirect index
arithmetic.  Device buffers are modelled as total functions from byte
addresses to stored elements; a typed store is `Function.update`.
-/

set_option autoImplicit false
set_option maxRecDepth 100000

namespace ATenMPS

/-! ### Unsigned 32-bit arithmetic and the `uint3` vector type -/

/-- Addition of two unsigned 32-bit integers (wraps modulo `2^32`). -/
def add32 (a b : Nat) : Nat := (a + b) % 2 ^ 32

/-- Multiplication of two unsigned 32-bit integers (wraps modulo `2^32`). -/
def mul32 (a b : Nat) : Nat := (a * b) % 2 ^ 32

/-- The Metal `uint3` / `packed_uint3` vector: three unsigned 32-bit
components.  Component `x` is the output-buffer offset, `y` the
input-buffer offset, `z` the auxiliary coordinate used to look up
indirect indices. -/
structure UInt3 where
  x : Nat
  y : Nat
  z : Nat
deriving DecidableEq, Repr

/-- Componentwise `uint3` addition (each component wraps modulo `2^32`). -/
def uadd3 (a b : UInt3) : UInt3 := ⟨add32 a.x b.x, add32 a.y b.y, add32 a.z b.z⟩

/-- Scalar-by-vector `uint3` multiplication (each component wraps modulo `2^32`),
as in `remainder * strides[dim]`. -/
def usmul3 (r : Nat) (s : UInt3) : UInt3 := ⟨mul32 r s.x, mul32 r s.y, mul32 r s.z⟩

/-! ### The offset resolver `get_idx`

Source (`GET_IDX_TEMPLATE`):
```
uint3 data_offsets = 0;
uint32_t idx = tid;
for (uint32_t dim = 0; dim < num_dimensions; dim++) {
    uint32_t remainder = idx % iter_shape[dim];
    idx /= iter_shape[dim];
    data_offsets += remainder * strides[dim];
}
return data_offsets;
```
The loop reads `iter_shape[0..num_dimensions)` and
`strides[0..num_dimensions)`; we embed it as structural recursion over
those prefixes (`List.take num_dimensions`). -/

/-- Loop body of `get_idx`: peel one dimension off the shape and stride
lists, accumulate `remainder * strides[dim]` into `acc`, and divide the
running thread id by the radix. -/
def get_idx_go : Nat → List Nat → List UInt3 → UInt3 → UInt3
  | _, [], _, acc => acc
  | _, _ :: _, [], acc => acc
  | idx, s :: ss, st :: sts, acc =>
      get_idx_go (idx / s) ss sts (uadd3 acc (usmul3 (idx % s) st))

/-- The `get_idx` offset resolver: decompose the flat `tid` in mixed radix
given by `iter_shape` and accumulate the per-dimension stride triples. -/
def get_idx (tid : Nat) (iter_shape : List Nat) (num_dimensions : Nat)
    (strides : List UInt3) : UInt3 :=
  get_idx_go tid (iter_shape.take num_dimensions) (strides.take num_dimensions) ⟨0, 0, 0⟩

/-! ### Mixed-radix decomposition and recombination (spec §4.1 / §8)

`decompose` is the coordinate-extraction part of the `get_idx` loop
(`remainder = idx % iter_shape[dim]; idx /= iter_shape[dim]`), with the
stride weighting stripped off; `recompose` is the mixed-radix sum
`sum(coord[d] * product(S[0..d)))` from the spec, written with the
product of the preceding radices factored out. -/

/-- Per-dimension coordinates of a flat thread id: the remainder sequence
produced by the `get_idx` loop. -/
def decompose : Nat → List Nat → List Nat
  | _, [] => []
  | idx, s :: ss => (idx % s) :: decompose (idx / s) ss

/-- Mixed-radix recombination: `recompose coords shape` is
`coords[0] + shape[0] * (coords[1] + shape[1] * (...))`, i.e. the sum of
`coords[d]` times the product of the radices preceding dimension `d`. -/
def recompose : List Nat → List Nat → Nat
  | [], _ => 0
  | _, [] => 0
  | c :: cs, s :: ss => c + s * recompose cs ss

theorem decompose_recompose (S : List Nat) (hpos : ∀ s ∈ S, 0 < s) :
    ∀ t : Nat, t < S.prod → recompose (decompose t S) S = t := by
  induction S with
  | nil =>
      intro t ht
      simp [List.prod_nil] at ht
      simp [decompose, recompose, ht]
  | cons s ss ih =>
      intro t ht
      have hs : 0 < s := hpos s (List.mem_cons_self s ss)
      have hrec : recompose (decompose (t / s) ss) ss = t / s := by
        apply ih
        · intro u hu
          exact hpos u (List.mem_cons_of_mem s hu)
        · have : t / s < (s * ss.prod) / s := by
            apply Nat.div_lt_div_of_lt_of_dvd (Dvd.intro _ rfl)
            simpa [List.prod_cons] using ht
          simpa [Nat.mul_div_cancel_left _ hs] using this
      simp [decompose, recompose, hrec, Nat.mod_add_div t s]

/-- C3: For every shape vector `S` with all entries positive and every thread
id `t < product S`, the per-dimension coordinates that the offset
resolver's loop extracts (`remainder = t % S[dim]`, `t /= S[dim]`),
recombined as the mixed-radix sum of `coord[d]` times the product of the
preceding radices, reconstruct `t` exactly. -/
theorem C3_mixed_radix_roundtrip (S : List Nat) (t : Nat)
    (hpos : ∀ s ∈ S, 0 < s) (ht : t < S.prod) :
    recompose (decompose t S) S = t :=
  decompose_recompose S hpos t ht

/-- Witness for C3 at shape `[4,3]`, thread id `11`. -/
theorem C3_mixed_radix_roundtrip_witness :
    recompose (decompose 11 [4, 3]) [4, 3] = 11 :=
  C3_mixed_radix_roundtrip [4, 3] 11 (by decide) (by decide)

/-! ### Signed 64-bit arithmetic and index normalization

The indirect index contributions are computed in `int64_t`
(`int64_t index = indexArray[offsets.z / sizeof(int64_t)]; ...;
offset += index * index_strides[i];`).  We model `int64_t` as `Int`
wrapped into `[-2^63, 2^63)` after every arithmetic operation. -/

/-- Wrap an integer into the signed 64-bit range `[-2^63, 2^63)`. -/
def wrap64 (v : Int) : Int := (v + 2 ^ 63) % 2 ^ 64 - 2 ^ 63

/-- The negative-index normalization every indexing kernel performs:
`if (index < 0) { index += index_sizes[i]; }` (int64 arithmetic). -/
def normalize_index (index : Int) (size : Int) : Int :=
  if index < 0 then wrap64 (index + size) else index

/-- Loop body shared by the four indexing kernels:
for `i` in `[0, num_indices)` read `index = indexArray_i[offsets.z / 8]`,
normalize a negative index by adding `index_sizes[i]`, and accumulate
`index * index_strides[i]` into the running `int64_t` offset.
`idxA i pos` models the `int64_t` read `indexAB[i].indexArray[pos]`
(or its legacy equivalent); `pos` is the already-divided element
position `offsets.z / sizeof(int64_t)`. -/
def index_offset_go (idxA : Nat → Nat → Int) (pos : Nat) :
    Nat → List Int → List Int → Int → Int
  | _, [], _, acc => acc
  | _, _ :: _, [], acc => acc
  | i, sz :: szs, st :: sts, acc =>
      index_offset_go idxA pos (i + 1) szs sts
        (wrap64 (acc + wrap64 (normalize_index (idxA i pos) sz * st)))

/-- The accumulated indirect `int64_t` offset of a thread whose auxiliary
coordinate (`offsets.z`, a byte offset) is `z`. -/
def index_offset (idxA : Nat → Nat → Int) (index_sizes index_strides : List Int)
    (num_indices : Nat) (z : Nat) : Int :=
  index_offset_go idxA (z / 8) 0 (index_sizes.take num_indices)
    (index_strides.take num_indices) 0

/-! ### The gather kernel `index_select` and the scatter kernel `index_put`

Buffers are modelled as total functions `Int → α` from byte addresses to
the element of type `T = α` stored at that address; the single typed
store `*out = *in` is a `Function.update`.  The argument order follows
the kernel's buffer bindings. -/

/-- The gather kernel `index_select<T>`: resolve `offsets = get_idx(...)`,
accumulate the indirect `offset` over the index arrays, then copy one
element of type `α` from `inputData + offsets.y + offset` to
`outputData + offsets.x`. -/
def index_select {α : Type} (idxA : Nat → Nat → Int)
    (indexSizes indexStrides : List Int)
    (inputData outputData : Int → α)
    (num_indices : Nat) (iter_shape : List Nat) (num_dimensions : Nat)
    (strides : List UInt3) (thread_index : Nat) : Int → α :=
  let offsets := get_idx thread_index iter_shape num_dimensions strides
  let offset := index_offset idxA indexSizes indexStrides num_indices offsets.z
  Function.update outputData (offsets.x : Int)
    (inputData ((offsets.y : Int) + offset))

/-- The scatter kernel `index_put<T>`: identical offset and index
resolution, but the indirect `offset` is applied to the output address:
copy one element of type `α` from `inputData + offsets.y` to
`outputData + offsets.x + offset`. -/
def index_put {α : Type} (idxA : Nat → Nat → Int)
    (indexSizes indexStrides : List Int)
    (inputData outputData : Int → α)
    (num_indices : Nat) (iter_shape : List Nat) (num_dimensions : Nat)
    (strides : List UInt3) (thread_index : Nat) : Int → α :=
  let offsets := get_idx thread_index iter_shape num_dimensions strides
  let offset := index_offset idxA indexSizes indexStrides num_indices offsets.z
  Function.update outputData ((offsets.x : Int) + offset)
    (inputData (offsets.y : Int))

/-- A grid launch of `index_put` with `n` threads: fold the per-thread
store over thread ids `0, 1, ..., n-1` (any fixed order; stores to
distinct addresses commute, which claim C7 exploits). -/
def index_put_grid {α : Type} (idxA : Nat → Nat → Int)
    (indexSizes indexStrides : List Int)
    (inputData outputData : Int → α)
    (num_indices : Nat) (iter_shape : List Nat) (num_dimensions : Nat)
    (strides : List UInt3) (n : Nat) : Int → α :=
  (List.range n).foldl
    (fun out t =>
      index_put idxA indexSizes indexStrides inputData out
        num_indices iter_shape num_dimensions strides t)
    outputData

/-- A grid launch of `index_select` with `n` threads. -/
def index_select_grid {α : Type} (idxA : Nat → Nat → Int)
    (indexSizes indexStrides : List Int)
    (inputData outputData : Int → α)
    (num_indices : Nat) (iter_shape : List Nat) (num_dimensions : Nat)
    (strides : List UInt3) (n : Nat) : Int → α :=
  (List.range n).foldl
    (fun out t =>
      index_select idxA indexSizes indexStrides inputData out
        num_indices iter_shape num_dimensions strides t)
    outputData

/-- C4: The negative-index normalization used by every indexing kernel
maps, for an indexed dimension of size `N < 2^63` (any int64 size), an
index `-k` with `1 ≤ k ≤ N` to `N - k`, and leaves every index in
`[0, N)` unchanged. -/
theorem C4_negative_index_normalization (N : Int) (hN : N < 2 ^ 63) :
    (∀ k : Int, 1 ≤ k → k ≤ N → normalize_index (-k) N = N - k) ∧
    (∀ i : Int, 0 ≤ i → i < N → normalize_index i N = i) := by
  constructor
  · intro k hk1 hkN
    have hlt : (-k : Int) < 0 := by omega
    have hrange : (0 : Int) ≤ -k + N + 2 ^ 63 ∧ -k + N + 2 ^ 63 < 2 ^ 64 := by
      constructor <;> omega
    simp only [normalize_index, if_pos hlt, wrap64]
    rw [Int.emod_eq_of_lt hrange.1 hrange.2]
    ring
  · intro i hi0 hiN
    have : ¬ i < 0 := by omega
    simp [normalize_index, this]

/-- Witness for C4 at `N = 4`, `k = 1` and `i = 2`. -/
theorem C4_negative_index_normalization_witness :
    normalize_index (-1) 4 = 3 ∧ normalize_index 2 4 = 2 := by
  have h := C4_negative_index_normalization 4 (by decide)
  exact ⟨h.1 1 (by decide) (by decide), h.2 2 (by decide) (by decide)⟩

/-! ### Concrete gather scenario (spec §8)

Rank-2 iteration shape `[4,3]` (dimension 0 innermost, 4 columns of 4-byte
elements per row, 3 output rows), row-major layout, one indexed dimension
with `index_sizes = [4]` (4 source rows), `index_strides = [16]` (source
row pitch in bytes), and index array `[-1, 0, 2]`. -/

/-- The scenario's single index array `[-1, 0, 2]`, read at element
position `offsets.z / 8`. -/
def gatherScenarioIdx : Nat → Nat → Int := fun _ pos => [(-1 : Int), 0, 2].getD pos 0

/-- The scenario's source buffer: each element's value is its own byte
address, so the element at row `r`, column `c` holds `16*r + 4*c`. -/
def gatherScenarioInput : Int → Int := fun a => a

/-- The scenario's per-dimension stride triples: columns advance output
and input by 4 bytes; output rows advance the output by 16 bytes and the
auxiliary index coordinate by 8 bytes (one `int64_t`). -/
def gatherScenarioStrides : List UInt3 := [⟨4, 4, 0⟩, ⟨16, 0, 8⟩]

/-- C5: For every thread, the gather kernel `index_select` writes to
`outputData + offsets.x` exactly the input element at
`inputData + offsets.y + offset` (the indirect offset applied only to the
input side) and leaves every other output address untouched; and in the
rank-2 `[4,3]` row-major scenario with `index_sizes = [4]` and indices
`[-1, 0, 2]`, the gather produces rows 3, 0, 2 of the source in that
order. -/
theorem C5_gather_kernel :
    (∀ (α : Type) (idxA : Nat → Nat → Int) (sizes strs : List Int)
        (input output : Int → α) (nI : Nat) (shape : List Nat) (nD : Nat)
        (st : List UInt3) (tid : Nat),
        index_select idxA sizes strs input output nI shape nD st tid
            ((get_idx tid shape nD st).x : Int) =
          input (((get_idx tid shape nD st).y : Int) +
            index_offset idxA sizes strs nI (get_idx tid shape nD st).z) ∧
        ∀ a : Int, a ≠ ((get_idx tid shape nD st).x : Int) →
          index_select idxA sizes strs input output nI shape nD st tid a = output a) ∧
    (∀ t : Nat, t < 12 →
        index_select gatherScenarioIdx [4] [16] gatherScenarioInput
            (fun _ => (0 : Int)) 1 [4, 3] 2 gatherScenarioStrides t
            (Int.ofNat (16 * (t / 4) + 4 * (t % 4))) =
          16 * ([(3 : Int), 0, 2].getD (t / 4) 0) + 4 * Int.ofNat (t % 4)) := by
  constructor
  · intro α idxA sizes strs input output nI shape nD st tid
    refine ⟨?_, ?_⟩
    · simp [index_select]
    · intro a ha
      simp [index_select, Function.update_noteq ha]
  · decide

/-- Witness for C5: thread 5 (output row 1, column 1) receives the
element of source row 0, column 1. -/
theorem C5_gather_kernel_witness :
    index_select gatherScenarioIdx [4] [16] gatherScenarioInput
        (fun _ => (0 : Int)) 1 [4, 3] 2 gatherScenarioStrides 5
        (Int.ofNat (16 * (5 / 4) + 4 * (5 % 4))) =
      16 * ([(3 : Int), 0, 2].getD (5 / 4) 0) + 4 * Int.ofNat (5 % 4) :=
  C5_gather_kernel.2 5 (by decide)

/-- C6: For every thread, the scatter kernel `index_put` resolves
`offsets` via the same `get_idx` and the indirect `offset` via the same
`index_offset` accumulation as the gather kernel, but applies the
indirect offset to the output side: it writes the input element at
`inputData + offsets.y` to `outputData + offsets.x + offset` and leaves
every other output address untouched. -/
theorem C6_scatter_kernel :
    ∀ (α : Type) (idxA : Nat → Nat → Int) (sizes strs : List Int)
      (input output : Int → α) (nI : Nat) (shape : List Nat) (nD : Nat)
      (st : List UInt3) (tid : Nat),
      index_put idxA sizes strs input output nI shape nD st tid
          (((get_idx tid shape nD st).x : Int) +
            index_offset idxA sizes strs nI (get_idx tid shape nD st).z) =
        input ((get_idx tid shape nD st).y : Int) ∧
      ∀ a : Int,
        a ≠ ((get_idx tid shape nD st).x : Int) +
              index_offset idxA sizes strs nI (get_idx tid shape nD st).z →
        index_put idxA sizes strs input output nI shape nD st tid a = output a := by
  intro α idxA sizes strs input output nI shape nD st tid
  refine ⟨?_, ?_⟩
  · simp [index_put]
  · intro a ha
    simp [index_put, Function.update_noteq ha]

/-- Witness for C6 in the gather scenario's configuration at thread 7:
the store lands at `offsets.x + offset` and address 0 is untouched. -/
theorem C6_scatter_kernel_witness :
    index_put gatherScenarioIdx [4] [16] gatherScenarioInput
        (fun _ => (99 : Int)) 1 [4, 3] 2 gatherScenarioStrides 7
        (((get_idx 7 [4, 3] 2 gatherScenarioStrides).x : Int) +
          index_offset gatherScenarioIdx [4] [16] 1
            (get_idx 7 [4, 3] 2 gatherScenarioStrides).z) =
      gatherScenarioInput ((get_idx 7 [4, 3] 2 gatherScenarioStrides).y : Int) ∧
    index_put gatherScenarioIdx [4] [16] gatherScenarioInput
        (fun _ => (99 : Int)) 1 [4, 3] 2 gatherScenarioStrides 7 1000 = 99 :=
  ⟨(C6_scatter_kernel Int gatherScenarioIdx [4] [16] gatherScenarioInput
      (fun _ => (99 : Int)) 1 [4, 3] 2 gatherScenarioStrides 7).1,
   (C6_scatter_kernel Int gatherScenarioIdx [4] [16] gatherScenarioInput
      (fun _ => (99 : Int)) 1 [4, 3] 2 gatherScenarioStrides 7).2 1000 (by decide)⟩

/-! ### The standalone offset precomputation kernel `kernel_index_offsets`

Source:
```
data_offsets[thread_index] = 0;
uint32_t idx = thread_index;
for (uint32_t dim = 0; dim < num_dimensions; dim++) {
    uint32_t remainder = idx % iter_shape[dim];
    idx /= iter_shape[dim];
    data_offsets[thread_index] += remainder * strides[dim];
}
```
The kernel body re-implements the `get_idx` loop inline (it does not call
`get_idx`), repeatedly reading back and rewriting the single slot
`data_offsets[thread_index]`.  Only that one slot is ever touched, so the
net effect on the output array is one store of the loop's accumulated
value; the inline loop is embedded as its own recursion,
`kernel_index_offsets_go`, to be compared against `get_idx`. -/

/-- Inline accumulation loop of `kernel_index_offsets` (textual copy of
the `get_idx` loop in the source). -/
def kernel_index_offsets_go : Nat → List Nat → List UInt3 → UInt3 → UInt3
  | _, [], _, acc => acc
  | _, _ :: _, [], acc => acc
  | idx, s :: ss, st :: sts, acc =>
      kernel_index_offsets_go (idx / s) ss sts (uadd3 acc (usmul3 (idx % s) st))

/-- The `kernel_index_offsets` kernel: one thread stores its accumulated
3-component offset into `data_offsets[thread_index]`.  The `num_offsets`
parameter is received (buffer 4) but never read by the body. -/
def kernel_index_offsets (strides : List UInt3) (data_offsets : Nat → UInt3)
    (iter_shape : List Nat) (num_dimensions : Nat) (num_offsets : Nat)
    (thread_index : Nat) : Nat → UInt3 :=
  Function.update data_offsets thread_index
    (kernel_index_offsets_go thread_index (iter_shape.take num_dimensions)
      (strides.take num_dimensions) ⟨0, 0, 0⟩)

theorem kernel_index_offsets_go_eq_get_idx_go (idx : Nat) (ss : List Nat) :
    ∀ (sts : List UInt3) (acc : UInt3),
      kernel_index_offsets_go idx ss sts acc = get_idx_go idx ss sts acc := by
  induction ss generalizing idx with
  | nil => intro sts acc; rfl
  | cons s ss ih =>
      intro sts acc
      cases sts with
      | nil => rfl
      | cons st sts => simp [kernel_index_offsets_go, get_idx_go, ih]

/-- C8: For every shape/stride configuration and every thread id, the
precomputation kernel `kernel_index_offsets` stores into the output array
at position `thread_index` exactly the 3-component offset that the
resolver `get_idx` computes for that thread id; and over shape `[5]` with
stride `(1,0,0)` and 5 threads the stored offsets are `0,1,2,3,4`. -/
theorem C8_offsets_kernel_matches_get_idx :
    (∀ (strides : List UInt3) (dat : Nat → UInt3) (shape : List Nat)
        (nD nOff tid : Nat),
        kernel_index_offsets strides dat shape nD nOff tid tid =
          get_idx tid shape nD strides) ∧
    (∀ t : Nat, t < 5 →
        kernel_index_offsets [⟨1, 0, 0⟩] (fun _ => ⟨7, 7, 7⟩) [5] 1 5 t t =
          ⟨t, 0, 0⟩) := by
  constructor
  · intro strides dat shape nD nOff tid
    simp [kernel_index_offsets, get_idx, kernel_index_offsets_go_eq_get_idx_go]
  · decide

/-- Witness for C8 at thread 3 of the shape-`[5]` scenario. -/
theorem C8_offsets_kernel_matches_get_idx_witness :
    kernel_index_offsets [⟨1, 0, 0⟩] (fun _ => ⟨7, 7, 7⟩) [5] 1 5 3 3 = ⟨3, 0, 0⟩ :=
  C8_offsets_kernel_matches_get_idx.2 3 (by decide)

/-- C10: The output of `kernel_index_offsets` is independent of its
`num_offsets` parameter: for equal remaining inputs, any two values of
`num_offsets` produce the identical output array — the parameter is bound
to buffer 4 but never read by the kernel body. -/
theorem C10_num_offsets_unused :
    ∀ (strides : List UInt3) (dat : Nat → UInt3) (shape : List Nat)
      (nD n1 n2 tid : Nat),
      kernel_index_offsets strides dat shape nD n1 tid =
        kernel_index_offsets strides dat shape nD n2 tid :=
  fun _ _ _ _ _ _ _ => rfl

/-! ### Scatter/gather roundtrip (C7)

Address formulas of the two kernels, named so the grid lemmas can speak
about them: the scatter store lands at `offsets.x + offset`, the gather
load comes from `offsets.y + offset`. -/

/-- Destination byte address of `index_put` for a given thread. -/
def put_write_addr (idxA : Nat → Nat → Int) (sizes strs : List Int)
    (nI : Nat) (shape : List Nat) (nD : Nat) (st : List UInt3) (t : Nat) : Int :=
  ((get_idx t shape nD st).x : Int) +
    index_offset idxA sizes strs nI (get_idx t shape nD st).z

/-- Source byte address of `index_select` for a given thread. -/
def select_read_addr (idxA : Nat → Nat → Int) (sizes strs : List Int)
    (nI : Nat) (shape : List Nat) (nD : Nat) (st : List UInt3) (t : Nat) : Int :=
  ((get_idx t shape nD st).y : Int) +
    index_offset idxA sizes strs nI (get_idx t shape nD st).z

theorem index_put_eq_update {α : Type} (idxA : Nat → Nat → Int)
    (sizes strs : List Int) (input output : Int → α) (nI : Nat)
    (shape : List Nat) (nD : Nat) (st : List UInt3) (t : Nat) :
    index_put idxA sizes strs input output nI shape nD st t =
      Function.update output (put_write_addr idxA sizes strs nI shape nD st t)
        (input ((get_idx t shape nD st).y : Int)) := rfl

theorem index_select_eq_update {α : Type} (idxA : Nat → Nat → Int)
    (sizes strs : List Int) (input output : Int → α) (nI : Nat)
    (shape : List Nat) (nD : Nat) (st : List UInt3) (t : Nat) :
    index_select idxA sizes strs input output nI shape nD st t =
      Function.update output ((get_idx t shape nD st).x : Int)
        (input (select_read_addr idxA sizes strs nI shape nD st t)) := rfl

theorem index_put_grid_succ {α : Type} (idxA : Nat → Nat → Int)
    (sizes strs : List Int) (input output : Int → α) (nI : Nat)
    (shape : List Nat) (nD : Nat) (st : List UInt3) (n : Nat) :
    index_put_grid idxA sizes strs input output nI shape nD st (n + 1) =
      index_put idxA sizes strs input
        (index_put_grid idxA sizes strs input output nI shape nD st n)
        nI shape nD st n := by
  simp [index_put_grid, List.range_succ]

theorem index_select_grid_succ {α : Type} (idxA : Nat → Nat → Int)
    (sizes strs : List Int) (input output : Int → α) (nI : Nat)
    (shape : List Nat) (nD : Nat) (st : List UInt3) (n : Nat) :
    index_select_grid idxA sizes strs input output nI shape nD st (n + 1) =
      index_select idxA sizes strs input
        (index_select_grid idxA sizes strs input output nI shape nD st n)
        nI shape nD st n := by
  simp [index_select_grid, List.range_succ]

/-- After a scatter grid with pairwise-distinct destination addresses,
each thread's destination holds the value that thread read. -/
theorem index_put_grid_read {α : Type} (idxA : Nat → Nat → Int)
    (sizes strs : List Int) (vals dest0 : Int → α) (nI : Nat)
    (shape : List Nat) (nD : Nat) (st : List UInt3) (n : Nat)
    (hinj : ∀ t1, t1 < n → ∀ t2, t2 < n →
      put_write_addr idxA sizes strs nI shape nD st t1 =
        put_write_addr idxA sizes strs nI shape nD st t2 → t1 = t2) :
    ∀ t, t < n →
      index_put_grid idxA sizes strs vals dest0 nI shape nD st n
          (put_write_addr idxA sizes strs nI shape nD st t) =
        vals ((get_idx t shape nD st).y : Int) := by
  induction n with
  | zero => intro t ht; exact absurd ht (Nat.not_lt_zero t)
  | succ n ih =>
      intro t ht
      rw [index_put_grid_succ, index_put_eq_update]
      rcases Nat.lt_succ_iff_lt_or_eq.mp ht with h | h
      · have hne : put_write_addr idxA sizes strs nI shape nD st t ≠
            put_write_addr idxA sizes strs nI shape nD st n := by
          intro he
          exact absurd (hinj t (h.trans (Nat.lt_succ_self n)) n (Nat.lt_succ_self n) he)
            (Nat.ne_of_lt h)
        rw [Function.update_noteq hne]
        exact ih (fun t1 h1 t2 h2 he =>
          hinj t1 (h1.trans (Nat.lt_succ_self n)) t2 (h2.trans (Nat.lt_succ_self n)) he) t h
      · subst h
        exact Function.update_same _ _ _

/-- After a gather grid, each thread's output slot holds the value the
source buffer supplies at that thread's read address, provided colliding
output slots are fed equal values. -/
theorem index_select_grid_read {α : Type} (idxA : Nat → Nat → Int)
    (sizes strs : List Int) (src rec0 : Int → α) (nI : Nat)
    (shape : List Nat) (nD : Nat) (st : List UInt3) (n : Nat) (vals : Nat → α)
    (hval : ∀ u, u < n →
      src (select_read_addr idxA sizes strs nI shape nD st u) = vals u)
    (hcol : ∀ t u, t < n → u < n →
      (get_idx t shape nD st).x = (get_idx u shape nD st).x → vals t = vals u) :
    ∀ t, t < n →
      index_select_grid idxA sizes strs src rec0 nI shape nD st n
          ((get_idx t shape nD st).x : Int) = vals t := by
  induction n with
  | zero => intro t ht; exact absurd ht (Nat.not_lt_zero t)
  | succ n ih =>
      intro t ht
      rw [index_select_grid_succ, index_select_eq_update]
      rcases Nat.lt_succ_iff_lt_or_eq.mp ht with h | h
      · by_cases hx : ((get_idx t shape nD st).x : Int) = ((get_idx n shape nD st).x : Int)
        · rw [hx, Function.update_same, hval n (Nat.lt_succ_self n)]
          exact (hcol t n (h.trans (Nat.lt_succ_self n)) (Nat.lt_succ_self n)
            (Nat.cast_inj.mp hx)).symm
        · rw [Function.update_noteq hx]
          exact ih (fun u hu => hval u (hu.trans (Nat.lt_succ_self n)))
            (fun t1 t2 h1 h2 he =>
              hcol t1 t2 (h1.trans (Nat.lt_succ_self n)) (h2.trans (Nat.lt_succ_self n)) he)
            t h
      · subst h
        rw [Function.update_same]
        exact hval t (Nat.lt_succ_self t)

/-- If every stride triple has equal output and input components, the
resolver's output and input offsets agree. -/
theorem get_idx_go_xy (idx : Nat) (ss : List Nat) :
    ∀ (sts : List UInt3) (acc : UInt3), (∀ s ∈ sts, s.x = s.y) → acc.x = acc.y →
      (get_idx_go idx ss sts acc).x = (get_idx_go idx ss sts acc).y := by
  induction ss generalizing idx with
  | nil => intro sts acc _ hacc; exact hacc
  | cons s ss ih =>
      intro sts acc hxy hacc
      cases sts with
      | nil => exact hacc
      | cons st sts =>
          simp only [get_idx_go]
          apply ih
          · intro u hu; exact hxy u (List.mem_cons_of_mem st hu)
          · simp [uadd3, usmul3, add32, mul32, hacc,
              hxy st (List.mem_cons_self st sts)]

theorem get_idx_xy (tid : Nat) (shape : List Nat) (nD : Nat) (st : List UInt3)
    (hxy : ∀ s ∈ st, s.x = s.y) :
    (get_idx tid shape nD st).x = (get_idx tid shape nD st).y :=
  get_idx_go_xy tid (shape.take nD) (st.take nD) ⟨0, 0, 0⟩
    (fun s hs => hxy s (List.take_subset nD st hs)) rfl

/-- C7 (amended): For every input value sequence and every index mapping
whose resulting destination addresses are pairwise distinct across the
`n` threads, and whose stride table has equal output and input components
in every dimension, running `index_put` with those values and indices and
then `index_select` with the same shape, strides, and indices recovers at
every thread's gather output address exactly the value that thread
scattered. -/
theorem C7_scatter_gather_roundtrip {α : Type} (idxA : Nat → Nat → Int)
    (sizes strs : List Int) (vals dest0 rec0 : Int → α) (nI : Nat)
    (shape : List Nat) (nD : Nat) (st : List UInt3) (n : Nat)
    (hxy : ∀ s ∈ st, s.x = s.y)
    (hinj : ∀ t1, t1 < n → ∀ t2, t2 < n →
      put_write_addr idxA sizes strs nI shape nD st t1 =
        put_write_addr idxA sizes strs nI shape nD st t2 → t1 = t2) :
    ∀ t, t < n →
      index_select_grid idxA sizes strs
          (index_put_grid idxA sizes strs vals dest0 nI shape nD st n)
          rec0 nI shape nD st n ((get_idx t shape nD st).x : Int) =
        vals ((get_idx t shape nD st).y : Int) := by
  intro t ht
  apply index_select_grid_read idxA sizes strs _ rec0 nI shape nD st n
    (fun u => vals ((get_idx u shape nD st).y : Int)) _ _ t ht
  · intro u hu
    have hsrc : select_read_addr idxA sizes strs nI shape nD st u =
        put_write_addr idxA sizes strs nI shape nD st u := by
      simp [select_read_addr, put_write_addr, get_idx_xy u shape nD st hxy]
    rw [hsrc]
    exact index_put_grid_read idxA sizes strs vals dest0 nI shape nD st n hinj u hu
  · intro t1 t2 _ _ he
    have h1 := get_idx_xy t1 shape nD st hxy
    have h2 := get_idx_xy t2 shape nD st hxy
    simp only []
    rw [← h1, ← h2, he]

/-- Concrete index accessor used for the roundtrip instances: one index
array holding a single `0`. -/
def roundtripIdx : Nat → Nat → Int := fun _ _ => 0

/-- Concrete scatter source buffer: each element's value is its own byte
address. -/
def roundtripVals : Int → Int := fun a => a

/-- Concrete initial destination buffer, filled with `999`. -/
def roundtripDest0 : Int → Int := fun _ => 999

/-- Concrete initial gather-output buffer, filled with `555`. -/
def roundtripRec0 : Int → Int := fun _ => 555

/-- Witness for C7: shape `[2]`, stride `(1,1,0)` (output and input
components equal), injective destinations `0, 1`; thread 1's value is
recovered. -/
theorem C7_scatter_gather_roundtrip_witness :
    index_select_grid roundtripIdx [1] [1]
        (index_put_grid roundtripIdx [1] [1] roundtripVals roundtripDest0
          1 [2] 1 [⟨1, 1, 0⟩] 2)
        roundtripRec0 1 [2] 1 [⟨1, 1, 0⟩] 2
        ((get_idx 1 [2] 1 [⟨1, 1, 0⟩]).x : Int) =
      roundtripVals ((get_idx 1 [2] 1 [⟨1, 1, 0⟩]).y : Int) :=
  C7_scatter_gather_roundtrip roundtripIdx [1] [1] roundtripVals
    roundtripDest0 roundtripRec0 1 [2] 1 [⟨1, 1, 0⟩] 2
    (by decide) (by decide) 1 (by decide)

/-- Counterexample to C7 as frozen: with shape `[2]`, stride `(1,2,0)`
(output component 1, input component 2) and the identity-like index
setup, the per-thread destination addresses `0, 1` are pairwise distinct
(injective), yet scatter-then-gather with the same shape, strides, and
indices does not recover thread 1's value: the gather returns the
untouched destination fill `999` instead of the scattered value `2`. -/
theorem C7_scatter_gather_roundtrip_counterexample :
    (∀ t1, t1 < 2 → ∀ t2, t2 < 2 →
      put_write_addr roundtripIdx [1] [1] 1 [2] 1 [⟨1, 2, 0⟩] t1 =
        put_write_addr roundtripIdx [1] [1] 1 [2] 1 [⟨1, 2, 0⟩] t2 → t1 = t2) ∧
    ¬ index_select_grid roundtripIdx [1] [1]
        (index_put_grid roundtripIdx [1] [1] roundtripVals roundtripDest0
          1 [2] 1 [⟨1, 2, 0⟩] 2)
        roundtripRec0 1 [2] 1 [⟨1, 2, 0⟩] 2
        ((get_idx 1 [2] 1 [⟨1, 2, 0⟩]).x : Int) =
      roundtripVals ((get_idx 1 [2] 1 [⟨1, 2, 0⟩]).y : Int) := by
  constructor
  · decide
  · decide

/-! ### The emulated atomic add `atomic_fetch_add_relaxed` (C1)

Source:
```
device atomic_uint* uintAddr = (device atomic_uint*)addr;
uint expected = atomic_load_explicit(uintAddr, memory_order_relaxed);
T updated = as_type<T>(expected) + value;
while (!atomic_compare_exchange_weak_explicit(uintAddr, &expected,
         as_type<uint>(updated), memory_order_relaxed, memory_order_relaxed)) {
    updated = as_type<T>(expected) + value;
}
```
A 32-bit value of type `T` is represented by its 32-bit bit pattern (a
`Nat < 2^32`), so the `as_type` reinterpretations are the identity on
bit patterns; the addition of the value type acts on bit patterns
through an abstract `fAdd` (for `T = float`, IEEE-754 addition on the
patterns — its numeric content is irrelevant to this claim). -/

/-- `as_type<T>(bits)`: reinterpret a 32-bit unsigned bit pattern as the
value type `T`. On the bit-pattern representation this is the identity
on `[0, 2^32)`. -/
def as_type_T (bits : Nat) : Nat := bits % 2 ^ 32

/-- `as_type<uint>(v)`: reinterpret a value of type `T` as its 32-bit
unsigned bit pattern; identity on `[0, 2^32)`. -/
def as_type_uint (bits : Nat) : Nat := bits % 2 ^ 32

/-- The successive `(expected, attempted-store)` pairs of the
compare-and-swap loop of `atomic_fetch_add_relaxed`: `first` is the bit
pattern obtained by the initial relaxed load, and `reloads` are the bit
patterns that the failed weak compare-and-swaps deposit into `expected`
(the destination slot's value at each failure), after each of which the
loop recomputes `updated = as_type<T>(expected) + value`. -/
def atomic_fetch_add_relaxed_trace (fAdd : Nat → Nat → Nat) (value : Nat) :
    Nat → List Nat → List (Nat × Nat)
  | expected, [] => [(expected, as_type_uint (fAdd (as_type_T expected) value))]
  | expected, r :: rs =>
      (expected, as_type_uint (fAdd (as_type_T expected) value)) ::
        atomic_fetch_add_relaxed_trace fAdd value r rs

theorem atomic_fetch_add_relaxed_trace_length (fAdd : Nat → Nat → Nat)
    (value : Nat) (first : Nat) (reloads : List Nat) :
    (atomic_fetch_add_relaxed_trace fAdd value first reloads).length =
      reloads.length + 1 := by
  induction reloads generalizing first with
  | nil => rfl
  | cons r rs ih => simp [atomic_fetch_add_relaxed_trace, ih]

/-- C1: In `atomic_fetch_add_relaxed`, the `k`-th compare-and-swap
attempt uses as its `expected` bit pattern exactly the `k`-th value
loaded from the destination slot (the initial load for `k = 0`, the
pattern deposited by the `k`-th failed compare-and-swap afterwards —
never the stale original), and its attempted store is recomputed as the
reinterpretation-to-uint of `fAdd` applied to the reinterpretation-to-`T`
of that latest pattern and the thread's input value; and the
reinterpretation between the 32-bit value type and the 32-bit unsigned
slot preserves exact bit patterns in both directions. -/
theorem C1_cas_recomputes_from_latest (fAdd : Nat → Nat → Nat) (value : Nat)
    (first : Nat) (reloads : List Nat) :
    (∀ k, k < reloads.length + 1 →
      (atomic_fetch_add_relaxed_trace fAdd value first reloads).getD k (0, 0) =
        ((first :: reloads).getD k 0,
          as_type_uint (fAdd (as_type_T ((first :: reloads).getD k 0)) value))) ∧
    (∀ u, u < 2 ^ 32 → as_type_uint (as_type_T u) = u ∧ as_type_T (as_type_uint u) = u) := by
  constructor
  · intro k hk
    induction reloads generalizing first k with
    | nil =>
        have hk0 : k = 0 := by simpa using Nat.lt_one_iff.mp (by simpa using hk)
        subst hk0
        rfl
    | cons r rs ih =>
        cases k with
        | zero => rfl
        | succ k =>
            simp only [atomic_fetch_add_relaxed_trace, List.getD_cons_succ]
            exact ih r k (by simpa using hk)
  · intro u hu
    constructor <;> (simp only [as_type_uint, as_type_T]; omega)

/-- Witness for C1 with `fAdd` = 32-bit wrapping addition, value 5,
initial load 7, one failed compare-and-swap that reloads 9: the second
attempt uses expected 9 (not the stale 7) and stores 14; and pattern 42
round-trips through the reinterpretations. -/
theorem C1_cas_recomputes_from_latest_witness :
    (atomic_fetch_add_relaxed_trace (fun a b => (a + b) % 2 ^ 32) 5 7 [9]).getD 1 (0, 0) =
      (([7, 9] : List Nat).getD 1 0,
        as_type_uint ((fun a b => (a + b) % 2 ^ 32) (as_type_T (([7, 9] : List Nat).getD 1 0)) 5)) ∧
    as_type_uint (as_type_T 42) = 42 ∧ as_type_T (as_type_uint 42) = 42 :=
  ⟨(C1_cas_recomputes_from_latest (fun a b => (a + b) % 2 ^ 32) 5 7 [9]).1 1 (by decide),
   (C1_cas_recomputes_from_latest (fun a b => (a + b) % 2 ^ 32) 5 7 [9]).2 42 (by decide)⟩

/-! ### Interleaved accumulation at one contended slot (C2)

Both accumulate kernels resolve the destination address exactly as
`index_put` (`outputData + offsets.x + offset`, i.e. `put_write_addr`)
and read their addend from `inputData + offsets.y`.  When all `K`
threads resolve the same destination, the contended slot is a single
memory cell; we model its evolution under an arbitrary interleaving.

* Native path (`index_put_accumulate_native_dtypes`): each thread
  performs one `atomic_fetch_add_explicit(out, *in, memory_order_relaxed)`
  — a single indivisible read-modify-write step.
* Emulated path (`atomic_index_put_accumulate` via
  `atomic_fetch_add_relaxed`): each thread performs a relaxed load
  followed by a weak compare-and-swap retry loop; every load and every
  compare-and-swap is its own indivisible step, and a weak
  compare-and-swap may fail spuriously.

A schedule is the sequence of scheduler choices: which thread steps
next (and, for the emulated path, whether its weak compare-and-swap
fails spuriously).  The element type is an arbitrary `M` with an
addition (`as_type` is the identity on bit patterns, so the slot is
modelled directly at type `M`; the compare of the compare-and-swap is
bit-pattern equality, i.e. equality in `M`). -/

/-- Per-thread control state of the native-atomic path: the single
atomic fetch-add has either not yet executed or already executed. -/
inductive NativePhase where
  | start : NativePhase
  | done : NativePhase
deriving DecidableEq

/-- Contended-slot state for `K` threads on the native-atomic path. -/
structure NativeSys (K : Nat) (M : Type) where
  mem : M
  th : Fin K → NativePhase

/-- One scheduler step of the native path: the chosen thread, if it has
not yet run, atomically adds its value to the slot. -/
def nativeStep {K : Nat} {M : Type} [Add M] (v : Fin K → M)
    (s : NativeSys K M) (i : Fin K) : NativeSys K M :=
  match s.th i with
  | .start => ⟨s.mem + v i, Function.update s.th i .done⟩
  | .done => s

/-- Run the native path under a schedule (sequence of chosen threads). -/
def nativeRun {K : Nat} {M : Type} [Add M] (v : Fin K → M)
    (s : NativeSys K M) (sched : List (Fin K)) : NativeSys K M :=
  sched.foldl (nativeStep v) s

/-- Per-thread control state of the emulated-atomic path:
`running expected updated` holds the thread's local `expected` bit
pattern and its recomputed `updated = as_type<T>(expected) + value`. -/
inductive CasPhase (M : Type) where
  | start : CasPhase M
  | running : M → M → CasPhase M
  | done : CasPhase M
deriving DecidableEq

/-- Contended-slot state for `K` threads on the emulated-atomic path. -/
structure CasSys (K : Nat) (M : Type) where
  mem : M
  th : Fin K → CasPhase M

/-- One scheduler step of the emulated path.  The chosen thread `ev.1`
either performs its initial relaxed load (computing
`updated = expected + v`), or attempts its weak compare-and-swap:
on success (slot still equals `expected` and no spurious failure,
`ev.2 = false`) the slot becomes `updated` and the loop exits; on
failure the compare-and-swap deposits the slot's current value into
`expected` and the loop recomputes `updated` from it. -/
def casStep {K : Nat} {M : Type} [Add M] [DecidableEq M] (v : Fin K → M)
    (s : CasSys K M) (ev : Fin K × Bool) : CasSys K M :=
  match s.th ev.1 with
  | .start => ⟨s.mem, Function.update s.th ev.1 (.running s.mem (s.mem + v ev.1))⟩
  | .running e u =>
      if s.mem = e ∧ ev.2 = false then
        ⟨u, Function.update s.th ev.1 .done⟩
      else
        ⟨s.mem, Function.update s.th ev.1 (.running s.mem (s.mem + v ev.1))⟩
  | .done => s

/-- Run the emulated path under a schedule (chosen thread, spurious-failure
flag for its weak compare-and-swap). -/
def casRun {K : Nat} {M : Type} [Add M] [DecidableEq M] (v : Fin K → M)
    (s : CasSys K M) (sched : List (Fin K × Bool)) : CasSys K M :=
  sched.foldl (casStep v) s

/-- The set of threads that have completed their accumulation (native). -/
def nativeDone {K : Nat} {M : Type} (s : NativeSys K M) : Finset (Fin K) :=
  Finset.univ.filter fun j => s.th j = NativePhase.done

/-- The set of threads that have completed their accumulation (emulated). -/
def casDone {K : Nat} {M : Type} [DecidableEq M] (s : CasSys K M) : Finset (Fin K) :=
  Finset.univ.filter fun j => s.th j = CasPhase.done

theorem nativeStep_inv {K : Nat} {M : Type} [AddCommMonoid M] (v : Fin K → M)
    (init : M) (s : NativeSys K M) (i : Fin K)
    (h : s.mem = init + Finset.sum (nativeDone s) v) :
    (nativeStep v s i).mem = init + Finset.sum (nativeDone (nativeStep v s i)) v := by
  unfold nativeStep
  split
  · rename_i hth
    have hset : nativeDone (⟨s.mem + v i, Function.update s.th i .done⟩ : NativeSys K M) =
        insert i (nativeDone s) := by
      ext j
      by_cases hj : j = i <;>
        simp [nativeDone, Function.update_apply, hj]
    have hnotin : i ∉ nativeDone s := by
      simp [nativeDone, hth]
    simp only [hset]
    rw [Finset.sum_insert hnotin, h]
    ac_rfl
  · exact h

theorem nativeRun_inv {K : Nat} {M : Type} [AddCommMonoid M] (v : Fin K → M)
    (init : M) (sched : List (Fin K)) :
    ∀ s : NativeSys K M, s.mem = init + Finset.sum (nativeDone s) v →
      (nativeRun v s sched).mem = init + Finset.sum (nativeDone (nativeRun v s sched)) v := by
  induction sched with
  | nil => intro s h; exact h
  | cons ev evs ih =>
      intro s h
      exact ih (nativeStep v s ev) (nativeStep_inv v init s ev h)

/-- Invariant of the emulated path: every running thread's local
`updated` equals its latest `expected` plus its value (C1's recompute
property as a state invariant), and the slot holds the initial value
plus the values of exactly the finished threads. -/
def casInv {K : Nat} {M : Type} [AddCommMonoid M] [DecidableEq M] (v : Fin K → M)
    (init : M) (s : CasSys K M) : Prop :=
  (∀ i e u, s.th i = CasPhase.running e u → u = e + v i) ∧
  s.mem = init + Finset.sum (casDone s) v

theorem casStep_inv {K : Nat} {M : Type} [AddCommMonoid M] [DecidableEq M]
    (v : Fin K → M) (init : M) (s : CasSys K M) (ev : Fin K × Bool)
    (h : casInv v init s) : casInv v init (casStep v s ev) := by
  obtain ⟨hrun, hmem⟩ := h
  unfold casStep
  split
  · rename_i hth
    constructor
    · intro j e u hj
      by_cases hji : j = ev.1
      · subst hji
        simp only [Function.update_same] at hj
        cases hj
        rfl
      · exact hrun j e u (by simpa [Function.update_noteq hji] using hj)
    · have hset : casDone (⟨s.mem, Function.update s.th ev.1
          (CasPhase.running s.mem (s.mem + v ev.1))⟩ : CasSys K M) = casDone s := by
        ext j
        by_cases hj : j = ev.1 <;>
          simp [casDone, Function.update_apply, hj, hth]
      simpa [hset] using hmem
  · rename_i e u hth
    split
    · rename_i hguard
      constructor
      · intro j e2 u2 hj
        by_cases hji : j = ev.1
        · subst hji
          simp only [Function.update_same] at hj
          cases hj
        · exact hrun j e2 u2 (by simpa [Function.update_noteq hji] using hj)
      · have hset : casDone (⟨u, Function.update s.th ev.1 CasPhase.done⟩ : CasSys K M) =
            insert ev.1 (casDone s) := by
          ext j
          by_cases hj : j = ev.1 <;>
            simp [casDone, Function.update_apply, hj]
        have hnotin : ev.1 ∉ casDone s := by
          simp [casDone, hth]
        simp only [hset]
        rw [Finset.sum_insert hnotin]
        have hu : u = s.mem + v ev.1 := by
          rw [hrun ev.1 e u hth, hguard.1]
        rw [hu, hmem]
        ac_rfl
    · constructor
      · intro j e2 u2 hj
        by_cases hji : j = ev.1
        · subst hji
          simp only [Function.update_same] at hj
          cases hj
          rfl
        · exact hrun j e2 u2 (by simpa [Function.update_noteq hji] using hj)
      · have hset : casDone (⟨s.mem, Function.update s.th ev.1
            (CasPhase.running s.mem (s.mem + v ev.1))⟩ : CasSys K M) = casDone s := by
          ext j
          by_cases hj : j = ev.1 <;>
            simp [casDone, Function.update_apply, hj, hth]
        simpa [hset] using hmem
  · exact ⟨hrun, hmem⟩

theorem casRun_inv {K : Nat} {M : Type} [AddCommMonoid M] [DecidableEq M]
    (v : Fin K → M) (init : M) (sched : List (Fin K × Bool)) :
    ∀ s : CasSys K M, casInv v init s → casInv v init (casRun v s sched) := by
  induction sched with
  | nil => intro s h; exact h
  | cons ev evs ih =>
      intro s h
      exact ih (casStep v s ev) (casStep_inv v init s ev h)

/-- C2: For every initial slot value and every set of `K` threads that
all resolve the same destination address (`put_write_addr`, as both
accumulate kernels compute it) and add the values they read at their
input addresses, every thread interleaving that completes all threads
leaves the destination equal to the initial value plus the sum of all
`K` values — for the native-atomic kernel
(`index_put_accumulate_native_dtypes`, one atomic fetch-add per thread)
and for the emulated-atomic kernel (`atomic_index_put_accumulate`, a
load plus weak compare-and-swap retry loop per thread, with arbitrary
spurious failures). -/
theorem C2_accumulate_sum_any_interleaving :
    (∀ (M : Type) [inst : AddCommMonoid M] (idxA : Nat → Nat → Int)
        (sizes strs : List Int) (input : Int → M) (nI : Nat) (shape : List Nat)
        (nD : Nat) (st : List UInt3) (K : Nat) (tids : Fin K → Nat) (init : M)
        (sched : List (Fin K)),
        (∀ i j : Fin K, put_write_addr idxA sizes strs nI shape nD st (tids i) =
          put_write_addr idxA sizes strs nI shape nD st (tids j)) →
        (∀ i : Fin K,
          (nativeRun (fun i => input ((get_idx (tids i) shape nD st).y : Int))
            ⟨init, fun _ => NativePhase.start⟩ sched).th i = NativePhase.done) →
        (nativeRun (fun i => input ((get_idx (tids i) shape nD st).y : Int))
            ⟨init, fun _ => NativePhase.start⟩ sched).mem =
          init + ∑ i : Fin K, input ((get_idx (tids i) shape nD st).y : Int)) ∧
    (∀ (M : Type) [inst : AddCommMonoid M] [inst2 : DecidableEq M]
        (idxA : Nat → Nat → Int)
        (sizes strs : List Int) (input : Int → M) (nI : Nat) (shape : List Nat)
        (nD : Nat) (st : List UInt3) (K : Nat) (tids : Fin K → Nat) (init : M)
        (sched : List (Fin K × Bool)),
        (∀ i j : Fin K, put_write_addr idxA sizes strs nI shape nD st (tids i) =
          put_write_addr idxA sizes strs nI shape nD st (tids j)) →
        (∀ i : Fin K,
          (casRun (fun i => input ((get_idx (tids i) shape nD st).y : Int))
            ⟨init, fun _ => CasPhase.start⟩ sched).th i = CasPhase.done) →
        (casRun (fun i => input ((get_idx (tids i) shape nD st).y : Int))
            ⟨init, fun _ => CasPhase.start⟩ sched).mem =
          init + ∑ i : Fin K, input ((get_idx (tids i) shape nD st).y : Int)) := by
  constructor
  · intro M inst idxA sizes strs input nI shape nD st K tids init sched _ hdone
    set v : Fin K → M := fun i => input ((get_idx (tids i) shape nD st).y : Int) with hv
    have h0 : (⟨init, fun _ => NativePhase.start⟩ : NativeSys K M).mem =
        init + Finset.sum (nativeDone (⟨init, fun _ => NativePhase.start⟩ : NativeSys K M)) v := by
      simp [nativeDone]
    have hinv := nativeRun_inv v init sched _ h0
    have hset : nativeDone (nativeRun v (⟨init, fun _ => NativePhase.start⟩ : NativeSys K M) sched) =
        Finset.univ := by
      apply Finset.filter_true_of_mem
      intro j _
      exact hdone j
    rw [hinv, hset]
  · intro M inst inst2 idxA sizes strs input nI shape nD st K tids init sched _ hdone
    set v : Fin K → M := fun i => input ((get_idx (tids i) shape nD st).y : Int) with hv
    have h0 : casInv v init (⟨init, fun _ => CasPhase.start⟩ : CasSys K M) := by
      constructor
      · intro i e u h
        cases h
      · simp [casDone]
    have hinv := casRun_inv v init sched _ h0
    have hset : casDone (casRun v (⟨init, fun _ => CasPhase.start⟩ : CasSys K M) sched) =
        Finset.univ := by
      apply Finset.filter_true_of_mem
      intro j _
      exact hdone j
    rw [hinv.2, hset]

/-- Witness for C2: two threads, element type `Nat`, no index arrays,
shape `[2]`, stride `(0,1,0)` (both threads' destination address is 0;
thread `i` reads value `i` from the input), initial slot value 5.
The native schedule runs the threads back to back; the emulated schedule
interleaves the two compare-and-swap loops so that thread 1's first
compare-and-swap fails against thread 0's committed update and retries.
Both interleavings end with all threads done and the slot at `5 + (0+1)`. -/
theorem C2_accumulate_sum_any_interleaving_witness :
    (nativeRun (fun i : Fin 2 => (fun a : Int => a.natAbs)
        ((get_idx ((fun j : Fin 2 => (j : Nat)) i) [2] 1 [⟨0, 1, 0⟩]).y : Int))
        ⟨5, fun _ => NativePhase.start⟩ [0, 1]).mem =
      5 + ∑ i : Fin 2, (fun a : Int => a.natAbs)
        ((get_idx ((fun j : Fin 2 => (j : Nat)) i) [2] 1 [⟨0, 1, 0⟩]).y : Int) ∧
    (casRun (fun i : Fin 2 => (fun a : Int => a.natAbs)
        ((get_idx ((fun j : Fin 2 => (j : Nat)) i) [2] 1 [⟨0, 1, 0⟩]).y : Int))
        ⟨5, fun _ => CasPhase.start⟩
        [(0, false), (1, false), (0, false), (1, false), (1, false)]).mem =
      5 + ∑ i : Fin 2, (fun a : Int => a.natAbs)
        ((get_idx ((fun j : Fin 2 => (j : Nat)) i) [2] 1 [⟨0, 1, 0⟩]).y : Int) :=
  ⟨C2_accumulate_sum_any_interleaving.1 Nat (fun _ _ => 0) [] [] (fun a => a.natAbs)
      0 [2] 1 [⟨0, 1, 0⟩] 2 (fun j => (j : Nat)) 5 [0, 1] (by decide) (by decide),
   C2_accumulate_sum_any_interleaving.2 Nat (fun _ _ => 0) [] [] (fun a => a.natAbs)
      0 [2] 1 [⟨0, 1, 0⟩] 2 (fun j => (j : Nat)) 5
      [(0, false), (1, false), (0, false), (1, false), (1, false)]
      (by decide) (by decide)⟩

/-! ### The two `IndexAB` representations (C9)

Source:
```
#if __METAL_VERSION__ < 300
struct IndexAB {
    // Allow up to 16 indices
    metal::array<constant void *, 16>  indexArray [[ id(0) ]];
};
#else
struct IndexAB {
    constant int64_t* indexArray;
};
#endif
```
Legacy consumers (kernel bound to `constant IndexAB &`) retrieve entry
`i` as `(constant int64_t*)indexAB.indexArray[i]`; modern consumers
(bound to `constant IndexAB *`) as `indexAB[i].indexArray`.  Device
pointers are modelled as opaque identifiers resolved through a heap
assigning each pointer the int64 array it points to. -/

/-- Pointer resolution: opaque pointer id ↦ pointed-to int64 array
(element position ↦ value). -/
abbrev PtrHeap := Nat → Nat → Int

/-- Legacy `IndexAB` (`__METAL_VERSION__ < 300`): a single argument
buffer holding an array of 16 opaque pointers. -/
structure IndexABLegacy where
  indexArray : Fin 16 → Nat

/-- Modern `IndexAB` (`__METAL_VERSION__ >= 300`): one struct per entry,
holding the int64 base pointer of that entry's index array; the kernel
receives a pointer to an array of these structs. -/
structure IndexABModern where
  indexArray : Nat

/-- Legacy retrieval-and-read:
`((constant int64_t*)indexAB.indexArray[i])[pos]` — one level of
indirection through the registered array-of-pointers (reading one of the
16 slots; a read past slot 16 is out of bounds in the source and modelled
as 0). -/
def legacy_index_read (heap : PtrHeap) (ab : IndexABLegacy) (i pos : Nat) : Int :=
  if h : i < 16 then heap (ab.indexArray ⟨i, h⟩) pos else 0

/-- Modern retrieval-and-read: `indexAB[i].indexArray[pos]` — direct
per-entry base pointer. -/
def modern_index_read (heap : PtrHeap) (ab : Nat → IndexABModern) (i pos : Nat) : Int :=
  heap (ab i).indexArray pos

/-- The index-loop of the kernels reads its accessor only at entries
`i0 ≤ i < i0 + len`: accessors that agree there produce the same
accumulated offset. -/
theorem index_offset_go_congr (a1 a2 : Nat → Nat → Int) (pos : Nat) :
    ∀ (i0 : Nat) (szs sts : List Int) (acc : Int),
      (∀ i, i0 ≤ i → i < i0 + szs.length → a1 i pos = a2 i pos) →
      index_offset_go a1 pos i0 szs sts acc = index_offset_go a2 pos i0 szs sts acc := by
  intro i0 szs
  induction szs generalizing i0 with
  | nil => intro sts acc _; rfl
  | cons sz szs ih =>
      intro sts acc hagree
      cases sts with
      | nil => rfl
      | cons st sts =>
          simp only [index_offset_go]
          rw [hagree i0 (Nat.le_refl i0) (by simp)]
          exact ih (i0 + 1) sts _ (fun i h1 h2 => hagree i (by omega) (by simp at h2 ⊢; omega))

theorem index_offset_congr (a1 a2 : Nat → Nat → Int) (sizes strs : List Int)
    (nI : Nat) (z : Nat) (hagree : ∀ i, i < nI → a1 i (z / 8) = a2 i (z / 8)) :
    index_offset a1 sizes strs nI z = index_offset a2 sizes strs nI z := by
  unfold index_offset
  apply index_offset_go_congr
  intro i h0 hlen
  apply hagree
  have := List.length_take_le nI sizes
  omega

/-- C9: When the legacy bounded array-of-pointers table and the modern
per-entry base-pointer table register the same pointer for every entry
below `num_indices ≤ 16`, retrieving the `i`-th index array and reading
any int64 from it yields the same value under either representation, and
every consuming kernel computes identical results: `index_select` and
`index_put` produce identical output buffers, and the accumulate kernels'
destination address (`put_write_addr`, shared by both accumulate paths)
is identical. -/
theorem C9_indexab_representations_interchangeable
    (heap : PtrHeap) (abL : IndexABLegacy) (abM : Nat → IndexABModern) (nI : Nat)
    (hn : nI ≤ 16)
    (hcorr : ∀ i : Fin 16, (i : Nat) < nI → abL.indexArray i = (abM (i : Nat)).indexArray) :
    (∀ i pos : Nat, i < nI →
      legacy_index_read heap abL i pos = modern_index_read heap abM i pos) ∧
    (∀ (α : Type) (sizes strs : List Int) (input output : Int → α)
        (shape : List Nat) (nD : Nat) (st : List UInt3) (tid : Nat),
      index_select (legacy_index_read heap abL) sizes strs input output nI shape nD st tid =
        index_select (modern_index_read heap abM) sizes strs input output nI shape nD st tid ∧
      index_put (legacy_index_read heap abL) sizes strs input output nI shape nD st tid =
        index_put (modern_index_read heap abM) sizes strs input output nI shape nD st tid ∧
      put_write_addr (legacy_index_read heap abL) sizes strs nI shape nD st tid =
        put_write_addr (modern_index_read heap abM) sizes strs nI shape nD st tid) := by
  have hread : ∀ i pos : Nat, i < nI →
      legacy_index_read heap abL i pos = modern_index_read heap abM i pos := by
    intro i pos hi
    have h16 : i < 16 := Nat.lt_of_lt_of_le hi hn
    simp only [legacy_index_read, modern_index_read, dif_pos h16]
    rw [hcorr ⟨i, h16⟩ hi]
  refine ⟨hread, ?_⟩
  intro α sizes strs input output shape nD st tid
  have hoff : ∀ z, index_offset (legacy_index_read heap abL) sizes strs nI z =
      index_offset (modern_index_read heap abM) sizes strs nI z := by
    intro z
    exact index_offset_congr _ _ sizes strs nI z (fun i hi => hread i (z / 8) hi)
  refine ⟨?_, ?_, ?_⟩
  · simp only [index_select, hoff]
  · simp only [index_put, hoff]
  · simp only [put_write_addr, hoff]

/-- Heap for the C9 witness: pointer `p` points to the array
`pos ↦ 100*p + pos`. -/
def witnessHeap : PtrHeap := fun p pos => 100 * p + pos

/-- Legacy table for the C9 witness: all 16 slots hold pointer 3. -/
def witnessLegacyAB : IndexABLegacy := ⟨fun _ => 3⟩

/-- Modern table for the C9 witness: every entry's base pointer is 3. -/
def witnessModernAB : Nat → IndexABModern := fun _ => ⟨3⟩

/-- Witness for C9 with one index entry (pointer 3 under both
representations): the reads at entry 0 agree, and a concrete
`index_select` launch produces the same output buffer under either
representation. -/
theorem C9_indexab_representations_interchangeable_witness :
    legacy_index_read witnessHeap witnessLegacyAB 0 5 =
      modern_index_read witnessHeap witnessModernAB 0 5 ∧
    index_select (legacy_index_read witnessHeap witnessLegacyAB) [400] [16]
        gatherScenarioInput (fun _ => (0 : Int)) 1 [4, 3] 2 gatherScenarioStrides 7 =
      index_select (modern_index_read witnessHeap witnessModernAB) [400] [16]
        gatherScenarioInput (fun _ => (0 : Int)) 1 [4, 3] 2 gatherScenarioStrides 7 :=
  ⟨(C9_indexab_representations_interchangeable witnessHeap witnessLegacyAB
      witnessModernAB 1 (by decide) (fun i hi => rfl)).1 0 5 (by decide),
   ((C9_indexab_representations_interchangeable witnessHeap witnessLegacyAB
      witnessModernAB 1 (by decide) (fun i hi => rfl)).2 Int [400] [16]
      gatherScenarioInput (fun _ => (0 : Int)) [4, 3] 2 gatherScenarioStrides 7).1⟩

end ATenMPS
